import Mathlib

/-! Scalar root solvers (`src/roots/Roots.cpp`)

A shallow embedding of `bisection`, `regula_falsi`, `newton_raphson`, `secant`
and `localmax`.

Numbers: the C++ `double` is idealised as an arbitrary linearly ordered field
`α` (exact arithmetic).  Every definition is computable and can be run at
`α = ℚ`; the analytic statements instantiate `α = ℝ`.  Rounding, infinities and
NaN are outside this model; in particular a division by zero yields `0` here
(the field convention) where IEEE arithmetic yields an infinity or a NaN.
Statements proved in it hold of the program as long as no operation of the run
overflows, underflows or changes a comparison by rounding.  The runs where the
range of `double` decides the outcome (midpoint overflow, underflow of the
sign-test product) are traced in a second model, `Double` with
`Binary64.bisection` and `Binary64.regula_falsi`.

Exceptions: every `throw std::runtime_error(msg)` becomes `Except.error e`,
with one constructor of `RootError` per distinct message (`RootError.what`).

Loops: `for (int i = 0; i < 1e6; ++i) { body }` becomes a recursion on a fuel
counter started at `maxIter = 1000000`; the loop body is a function returning a
`LoopStep` (return a value, throw, or go round again with a new state).
-/

namespace Roots

/-- The distinct `std::runtime_error` messages thrown in `Roots.cpp`. -/
inductive RootError where
  | invalidBracket
  | bisectionDidNotConverge
  | regulaFalsiDidNotConverge
  | zeroDerivative
  | newtonDidNotConverge
  | secantDivisionByZero
  | secantDidNotConverge
  | noLocalMaximum
  deriving DecidableEq, Repr

/-- The message carried by each error (`std::runtime_error::what`). -/
def RootError.what : RootError → String
  | .invalidBracket => "f(a) and f(b) must have opposite signs"
  | .bisectionDidNotConverge =>
      "Bisection method did not converge within the maximum number of iterations"
  | .regulaFalsiDidNotConverge =>
      "Regula Falsi method did not converge within the maximum number of iterations"
  | .zeroDerivative => "Derivative is zero. No solution found."
  | .newtonDidNotConverge =>
      "Newton-Raphson method did not converge within the maximum number of iterations"
  | .secantDivisionByZero => "Division by zero in Secant method. No solution found."
  | .secantDidNotConverge =>
      "Secant method did not converge within the maximum number of iterations"
  | .noLocalMaximum => "No local maximum found in the given interval"

/-- Outcome of one pass through a loop body. -/
inductive LoopStep (σ α : Type) where
  | ret (value : α)
  | fail (e : RootError)
  | next (state : σ)

/-- The loop bound of all four solvers: `i < 1e6`. -/
def maxIter : Nat := 1000000

/-- The threshold `1e-12` of the two degeneracy guards. -/
def degeneracyEps {α : Type} [LinearOrderedField α] : α := 1 / 10 ^ 12

/-- Runs a loop body at most `fuel` times; `exhausted` is thrown after the loop. -/
def runLoop {σ α : Type} (body : σ → LoopStep σ α) (exhausted : RootError) :
    Nat → σ → Except RootError α
  | 0, _ => .error exhausted
  | fuel + 1, s =>
    match body s with
    | .ret v => .ok v
    | .fail e => .error e
    | .next s1 => runLoop body exhausted fuel s1

/-- State after `k` passes through the body that all went round again;
`none` when one of them left the loop. -/
def iterate {σ α : Type} (body : σ → LoopStep σ α) : Nat → σ → Option σ
  | 0, s => some s
  | k + 1, s =>
    match body s with
    | .next s1 => iterate body k s1
    | _ => none

/-- Local variables `a, b, fa, fb` of the bracketing solvers. -/
structure Bracket (α : Type) where
  a : α
  b : α
  fa : α
  fb : α

section Solvers

variable {α : Type} [LinearOrderedField α]

/-- Body of the `for` loop of `bisection` (Roots.cpp lines 18-34). -/
def bisectionBody (f : α → α) (tol : α) (s : Bracket α) : LoopStep (Bracket α) α :=
  let c := (1 / 2) * (s.a + s.b)
  let fc := f c
  if |fc| < tol ∨ (s.b - s.a) / 2 < tol then .ret c
  else if s.fa * fc < 0 then .next ⟨s.a, c, s.fa, fc⟩
  else .next ⟨c, s.b, fc, s.fb⟩

/-- Embedding of `bisection` (Roots.cpp lines 6-37). -/
def bisection (f : α → α) (a b tol : α) : Except RootError α :=
  let fa := f a
  let fb := f b
  if fa * fb > 0 then .error .invalidBracket
  else runLoop (bisectionBody f tol) .bisectionDidNotConverge maxIter ⟨a, b, fa, fb⟩

/-- Body of the `for` loop of `regula_falsi` (Roots.cpp lines 52-67). -/
def regulaFalsiBody (f : α → α) (tol : α) (s : Bracket α) : LoopStep (Bracket α) α :=
  let c := (s.a * s.fb - s.b * s.fa) / (s.fb - s.fa)
  let fc := f c
  if |fc| < tol then .ret c
  else if s.fa * fc < 0 then .next ⟨s.a, c, s.fa, fc⟩
  else .next ⟨c, s.b, fc, s.fb⟩

/-- Embedding of `regula_falsi` (Roots.cpp lines 40-70). -/
def regula_falsi (f : α → α) (a b tol : α) : Except RootError α :=
  let fa := f a
  let fb := f b
  if fa * fb > 0 then .error .invalidBracket
  else runLoop (regulaFalsiBody f tol) .regulaFalsiDidNotConverge maxIter ⟨a, b, fa, fb⟩

/-- Body of the `for` loop of `newton_raphson` (Roots.cpp lines 81-95);
the state is the current iterate `x`. -/
def newtonBody (f df : α → α) (tol : α) (x : α) : LoopStep α α :=
  let fx := f x
  let dfx := df x
  if |dfx| ≤ degeneracyEps then .fail .zeroDerivative
  else
    let xn := x - fx / dfx
    if |xn - x| < tol then .ret xn
    else .next xn

/-- Embedding of `newton_raphson` (Roots.cpp lines 73-98). -/
def newton_raphson (f df : α → α) (x0 tol : α) : Except RootError α :=
  runLoop (newtonBody f df tol) .newtonDidNotConverge maxIter x0

/-- Local variables `x0, x1, f0, f1` of `secant`. -/
structure SecantState (α : Type) where
  x0 : α
  x1 : α
  f0 : α
  f1 : α

/-- Body of the `for` loop of `secant` (Roots.cpp lines 108-124). -/
def secantBody (f : α → α) (tol : α) (s : SecantState α) : LoopStep (SecantState α) α :=
  if |s.f1 - s.f0| ≤ degeneracyEps then .fail .secantDivisionByZero
  else
    let xn1 := s.x0 - s.f0 * (s.x1 - s.x0) / (s.f1 - s.f0)
    if |xn1 - s.x1| < tol then .ret xn1
    else .next ⟨s.x1, xn1, s.f1, f xn1⟩

/-- Embedding of `secant` (Roots.cpp lines 101-127). -/
def secant (f : α → α) (x0 x1 tol : α) : Except RootError α :=
  runLoop (secantBody f tol) .secantDidNotConverge maxIter ⟨x0, x1, f x0, f x1⟩

/-- Embedding of `localmax` (Roots.cpp lines 131-138); an exception of the call
to `bisection` propagates. -/
def localmax (_f df ddf : α → α) (a b tol : α) : Except RootError α :=
  match bisection df a b tol with
  | .error e => .error e
  | .ok x => if ddf x < 0 then .ok x else .error .noLocalMaximum

end Solvers

/-- Invariant of the loop for a strict sign change and `tol > 0`: the cached
values are the function values, the bracket lies in `[a, b]` and the signs at
its ends are strictly opposite. -/
def StrictBracket (f : ℝ → ℝ) (a b : ℝ) (s : Bracket ℝ) : Prop :=
  s.fa = f s.a ∧ s.fb = f s.b ∧ s.fa * s.fb < 0 ∧ a ≤ s.a ∧ s.a ≤ s.b ∧ s.b ≤ b

/-! ## IEEE-754 binary64

The solvers above run over exact arithmetic.  Where a failure of the program
comes from the range of `double` (overflow to an infinity, underflow to a signed
zero), the run is traced in the model below: `Double` is binary64 with
round-to-nearest, ties to even, every operation rounded on its own. -/

/-- A binary64 value: a NaN, an infinity, or the finite value `(-1)^neg * m * 2^e`,
kept with `2^52 ≤ m < 2^53` and `-1074 ≤ e ≤ 971` (normal), with `m < 2^52` and
`e = -1074` (subnormal), or with `m = 0` and `e = 0` (a signed zero). -/
inductive Double where
  | nan
  | inf (neg : Bool)
  | fin (neg : Bool) (m : Nat) (e : Int)
  deriving DecidableEq, Repr

namespace Double

/-- Least `J ≥ j` with `n < 2^(2^J)`, searched upwards with the given fuel. -/
def bitsNeeded : Nat → Nat → Nat → Nat
  | 0, _, j => j
  | fuel + 1, n, j => if n < 2 ^ 2 ^ j then j else bitsNeeded fuel n (j + 1)

/-- Binary search for the position of the leading bit: from `2^acc ≤ n < 2^(acc + 2^i)`. -/
def log2Search : Nat → Nat → Nat → Nat
  | 0, _, acc => acc
  | i + 1, n, acc =>
    if 2 ^ (acc + 2 ^ i) ≤ n then log2Search i n (acc + 2 ^ i) else log2Search i n acc

/-- The `k` with `2^k ≤ n < 2^(k+1)`, for `n > 0`. -/
def floorLog2 (n : Nat) : Nat := log2Search (bitsNeeded n n 0) n 0

/-- Rounds the rational `p / q` (with `q > 0`) to the nearest binary64 value, ties
to even, and gives it the sign `neg`; overflows to an infinity, underflows to a
subnormal or to a signed zero. -/
def roundRat (neg : Bool) (p q : Nat) : Double :=
  if p = 0 then .fin neg 0 0
  else
    let k0 : Int := (floorLog2 p : Int) - (floorLog2 q : Int)
    let below : Bool :=
      if 0 ≤ k0 then decide (p < q * 2 ^ k0.toNat) else decide (p * 2 ^ (-k0).toNat < q)
    let k : Int := if below then k0 - 1 else k0
    let e : Int := max (k - 52) (-1074)
    let num : Nat := if e < 0 then p * 2 ^ (-e).toNat else p
    let den : Nat := if e < 0 then q else q * 2 ^ e.toNat
    let m0 : Nat := num / den
    let r : Nat := num % den
    let m : Nat := if den < 2 * r ∨ (2 * r = den ∧ m0 % 2 = 1) then m0 + 1 else m0
    if m = 0 then .fin neg 0 0
    else if m = 2 ^ 53 then (if 971 < e + 1 then .inf neg else .fin neg (2 ^ 52) (e + 1))
    else if 971 < e then .inf neg
    else .fin neg m e

/-- Rounds `n * 2^e`. -/
def roundScaled (neg : Bool) (n : Nat) (e : Int) : Double :=
  if 0 ≤ e then roundRat neg (n * 2 ^ e.toNat) 1 else roundRat neg n (2 ^ (-e).toNat)

/-- The integer `± m * 2^(e - e0)`, for `e0 ≤ e`. -/
def scaled (neg : Bool) (m : Nat) (e e0 : Int) : Int :=
  if neg then -((m * 2 ^ (e - e0).toNat : Nat) : Int) else ((m * 2 ^ (e - e0).toNat : Nat) : Int)

/-- Unary minus. -/
def neg : Double → Double
  | .nan => .nan
  | .inf s => .inf (!s)
  | .fin s m e => .fin (!s) m e

/-- Absolute value, `std::abs`. -/
def abs : Double → Double
  | .nan => .nan
  | .inf _ => .inf false
  | .fin _ m e => .fin false m e

/-- Addition, `x + y`. -/
def add : Double → Double → Double
  | .nan, _ => .nan
  | _, .nan => .nan
  | .inf s, .inf t => if s = t then .inf s else .nan
  | .inf s, .fin _ _ _ => .inf s
  | .fin _ _ _, .inf t => .inf t
  | .fin s m e, .fin t n g =>
    let e0 := min e g
    let sum : Int := scaled s m e e0 + scaled t n g e0
    if sum = 0 then .fin (s && t) 0 0
    else roundScaled (decide (sum < 0)) sum.natAbs e0

/-- Subtraction, `x - y`. -/
def sub (x y : Double) : Double := add x (neg y)

/-- Multiplication, `x * y`. -/
def mul : Double → Double → Double
  | .nan, _ => .nan
  | _, .nan => .nan
  | .inf s, .inf t => .inf (xor s t)
  | .inf s, .fin t n _ => if n = 0 then .nan else .inf (xor s t)
  | .fin s m _, .inf t => if m = 0 then .nan else .inf (xor s t)
  | .fin s m e, .fin t n g => roundScaled (xor s t) (m * n) (e + g)

/-- Division, `x / y`. -/
def div : Double → Double → Double
  | .nan, _ => .nan
  | _, .nan => .nan
  | .inf _, .inf _ => .nan
  | .inf s, .fin t _ _ => .inf (xor s t)
  | .fin s _ _, .inf t => .fin (xor s t) 0 0
  | .fin s m e, .fin t n g =>
    if n = 0 then (if m = 0 then .nan else .inf (xor s t))
    else if 0 ≤ e - g then roundRat (xor s t) (m * 2 ^ (e - g).toNat) n
    else roundRat (xor s t) m (n * 2 ^ (g - e).toNat)

/-- Comparison `x < y`: false on a NaN, and `-0 < +0` is false. -/
def lt : Double → Double → Bool
  | .nan, _ => false
  | _, .nan => false
  | .inf s, .inf t => s && !t
  | .inf s, .fin _ _ _ => s
  | .fin _ _ _, .inf t => !t
  | .fin s m e, .fin t n g => decide (scaled s m e (min e g) < scaled t n g (min e g))

/-- Comparison `x <= y`: false on a NaN. -/
def le : Double → Double → Bool
  | .nan, _ => false
  | _, .nan => false
  | x, y => !(lt y x)

/-- The double nearest to the natural number `n` (an integer literal or constant). -/
def ofNat (n : Nat) : Double := roundRat false n 1

/-- The double nearest to `p / q` (a decimal literal such as `0.5` or `1e-6`). -/
def ofRatio (p q : Nat) : Double := roundRat false p q

end Double

namespace Binary64

/-- Body of the `for` loop of `bisection` (Roots.cpp lines 18-34) in binary64. -/
def bisectionBody (f : Double → Double) (tol : Double) (s : Bracket Double) :
    LoopStep (Bracket Double) Double :=
  let c := Double.mul (Double.ofRatio 1 2) (Double.add s.a s.b)
  let fc := f c
  if Double.lt (Double.abs fc) tol ||
      Double.lt (Double.div (Double.sub s.b s.a) (Double.ofNat 2)) tol then .ret c
  else if Double.lt (Double.mul s.fa fc) (Double.ofNat 0) then .next ⟨s.a, c, s.fa, fc⟩
  else .next ⟨c, s.b, fc, s.fb⟩

/-- Embedding of `bisection` (Roots.cpp lines 6-37) in binary64. -/
def bisection (f : Double → Double) (a b tol : Double) : Except RootError Double :=
  let fa := f a
  let fb := f b
  if Double.lt (Double.ofNat 0) (Double.mul fa fb) then .error .invalidBracket
  else runLoop (bisectionBody f tol) .bisectionDidNotConverge maxIter ⟨a, b, fa, fb⟩

/-- Body of the `for` loop of `regula_falsi` (Roots.cpp lines 52-67) in binary64. -/
def regulaFalsiBody (f : Double → Double) (tol : Double) (s : Bracket Double) :
    LoopStep (Bracket Double) Double :=
  let c := Double.div (Double.sub (Double.mul s.a s.fb) (Double.mul s.b s.fa))
    (Double.sub s.fb s.fa)
  let fc := f c
  if Double.lt (Double.abs fc) tol then .ret c
  else if Double.lt (Double.mul s.fa fc) (Double.ofNat 0) then .next ⟨s.a, c, s.fa, fc⟩
  else .next ⟨c, s.b, fc, s.fb⟩

/-- Embedding of `regula_falsi` (Roots.cpp lines 40-70) in binary64. -/
def regula_falsi (f : Double → Double) (a b tol : Double) : Except RootError Double :=
  let fa := f a
  let fb := f b
  if Double.lt (Double.ofNat 0) (Double.mul fa fb) then .error .invalidBracket
  else runLoop (regulaFalsiBody f tol) .regulaFalsiDidNotConverge maxIter ⟨a, b, fa, fb⟩

/-- The function `x - 1e308`. -/
def shiftedLine (x : Double) : Double := Double.sub x (Double.ofNat (10 ^ 308))

/-- The function `x / 2^600`. -/
def flatLine (x : Double) : Double := Double.div x (Double.ofNat (2 ^ 600))

/-- A function given by a table: `f(0) = -2^-600`, `f(1) = 2^-400`,
`f(2^-200) = 2^-500`, `f(-2^-100) = 2^-400`, and `0` elsewhere. -/
def tableFunction (x : Double) : Double :=
  if Double.abs x = Double.ofNat 0 then Double.neg (Double.ofRatio 1 (2 ^ 600))
  else if x = Double.ofNat 1 then Double.ofRatio 1 (2 ^ 400)
  else if x = Double.ofRatio 1 (2 ^ 200) then Double.ofRatio 1 (2 ^ 500)
  else if x = Double.neg (Double.ofRatio 1 (2 ^ 100)) then Double.ofRatio 1 (2 ^ 400)
  else Double.ofNat 0

end Binary64

/-! ## Generic facts about the bounded loop -/

section Loop

variable {σ α : Type}

theorem runLoop_zero (body : σ → LoopStep σ α) (ex : RootError) (s : σ) :
    runLoop body ex 0 s = .error ex := rfl

theorem runLoop_succ (body : σ → LoopStep σ α) (ex : RootError) (n : Nat) (s : σ) :
    runLoop body ex (n + 1) s =
      match body s with
      | .ret v => .ok v
      | .fail e => .error e
      | .next s1 => runLoop body ex n s1 := rfl

theorem runLoop_ret (body : σ → LoopStep σ α) (ex : RootError) (n : Nat) (s : σ) (v : α)
    (h : body s = .ret v) : runLoop body ex (n + 1) s = .ok v := by
  rw [runLoop_succ, h]

theorem runLoop_fail (body : σ → LoopStep σ α) (ex : RootError) (n : Nat) (s : σ)
    (e : RootError) (h : body s = .fail e) : runLoop body ex (n + 1) s = .error e := by
  rw [runLoop_succ, h]

theorem runLoop_next (body : σ → LoopStep σ α) (ex : RootError) (n : Nat) (s s1 : σ)
    (h : body s = .next s1) : runLoop body ex (n + 1) s = runLoop body ex n s1 := by
  rw [runLoop_succ, h]

theorem iterate_succ_next (body : σ → LoopStep σ α) (k : Nat) (s s1 : σ)
    (h : body s = .next s1) : iterate body (k + 1) s = iterate body k s1 := by
  simp [iterate, h]

/-- A state reached after `k` rounds, with fuel left, decides the loop's result
when the body returns there. -/
theorem runLoop_of_iterate_ret (body : σ → LoopStep σ α) (ex : RootError) :
    ∀ (k fuel : Nat) (s0 s : σ) (v : α), k < fuel → iterate body k s0 = some s →
      body s = .ret v → runLoop body ex fuel s0 = .ok v := by
  intro k
  induction k with
  | zero =>
    intro fuel s0 s v hk hit hb
    obtain ⟨n, rfl⟩ : ∃ n, fuel = n + 1 := ⟨fuel - 1, by omega⟩
    simp only [iterate, Option.some.injEq] at hit
    subst hit
    exact runLoop_ret body ex n s0 v hb
  | succ k ih =>
    intro fuel s0 s v hk hit hb
    obtain ⟨n, rfl⟩ : ∃ n, fuel = n + 1 := ⟨fuel - 1, by omega⟩
    simp only [iterate] at hit
    cases hs : body s0 with
    | ret w => simp [hs] at hit
    | fail e => simp [hs] at hit
    | next s1 =>
      simp only [hs] at hit
      rw [runLoop_next body ex n s0 s1 hs]
      exact ih n s1 s v (by omega) hit hb

/-- Same as `runLoop_of_iterate_ret`, for a body that throws. -/
theorem runLoop_of_iterate_fail (body : σ → LoopStep σ α) (ex : RootError) :
    ∀ (k fuel : Nat) (s0 s : σ) (e : RootError), k < fuel → iterate body k s0 = some s →
      body s = .fail e → runLoop body ex fuel s0 = .error e := by
  intro k
  induction k with
  | zero =>
    intro fuel s0 s e hk hit hb
    obtain ⟨n, rfl⟩ : ∃ n, fuel = n + 1 := ⟨fuel - 1, by omega⟩
    simp only [iterate, Option.some.injEq] at hit
    subst hit
    exact runLoop_fail body ex n s0 e hb
  | succ k ih =>
    intro fuel s0 s e hk hit hb
    obtain ⟨n, rfl⟩ : ∃ n, fuel = n + 1 := ⟨fuel - 1, by omega⟩
    simp only [iterate] at hit
    cases hs : body s0 with
    | ret w => simp [hs] at hit
    | fail e1 => simp [hs] at hit
    | next s1 =>
      simp only [hs] at hit
      rw [runLoop_next body ex n s0 s1 hs]
      exact ih n s1 s e (by omega) hit hb

/-- A value returned by the loop was returned by the body at a state reached
within the budget. -/
theorem runLoop_ok_iff (body : σ → LoopStep σ α) (ex : RootError) (fuel : Nat) (s0 : σ)
    (v : α) :
    runLoop body ex fuel s0 = .ok v ↔
      ∃ k s, k < fuel ∧ iterate body k s0 = some s ∧ body s = .ret v := by
  constructor
  · induction fuel generalizing s0 with
    | zero => intro h; simp [runLoop] at h
    | succ n ih =>
      intro h
      rw [runLoop_succ] at h
      cases hs : body s0 with
      | ret w =>
        simp only [hs, Except.ok.injEq] at h
        subst h
        exact ⟨0, s0, by omega, rfl, hs⟩
      | fail e => simp [hs] at h
      | next s1 =>
        simp only [hs] at h
        obtain ⟨k, s, hk, hit, hb⟩ := ih s1 h
        exact ⟨k + 1, s, by omega, by rw [iterate_succ_next body k s0 s1 hs]; exact hit, hb⟩
  · rintro ⟨k, s, hk, hit, hb⟩
    exact runLoop_of_iterate_ret body ex k fuel s0 s v hk hit hb

/-- An error of the loop is the exhaustion error or was thrown by the body at
a state reached within the budget. -/
theorem runLoop_error_cases (body : σ → LoopStep σ α) (ex : RootError) (fuel : Nat) (s0 : σ)
    (e : RootError) (h : runLoop body ex fuel s0 = .error e) :
    e = ex ∨ ∃ k s, k < fuel ∧ iterate body k s0 = some s ∧ body s = .fail e := by
  induction fuel generalizing s0 with
  | zero =>
    simp only [runLoop, Except.error.injEq] at h
    exact Or.inl h.symm
  | succ n ih =>
    rw [runLoop_succ] at h
    cases hs : body s0 with
    | ret w => simp [hs] at h
    | fail e1 =>
      simp only [hs, Except.error.injEq] at h
      subst h
      exact Or.inr ⟨0, s0, by omega, rfl, hs⟩
    | next s1 =>
      simp only [hs] at h
      rcases ih s1 h with h1 | ⟨k, s, hk, hit, hb⟩
      · exact Or.inl h1
      · exact Or.inr ⟨k + 1, s, by omega,
          by rw [iterate_succ_next body k s0 s1 hs]; exact hit, hb⟩

/-- An invariant of the loop body holds at every state the loop reaches. -/
theorem iterate_invariant (body : σ → LoopStep σ α) (P : σ → Prop)
    (hstep : ∀ s s1, P s → body s = .next s1 → P s1) :
    ∀ (k : Nat) (s0 s : σ), P s0 → iterate body k s0 = some s → P s := by
  intro k
  induction k with
  | zero =>
    intro s0 s h0 hit
    simp only [iterate, Option.some.injEq] at hit
    exact hit ▸ h0
  | succ k ih =>
    intro s0 s h0 hit
    simp only [iterate] at hit
    cases hs : body s0 with
    | ret w => simp [hs] at hit
    | fail e => simp [hs] at hit
    | next s1 =>
      simp only [hs] at hit
      exact ih s1 s (hstep s0 s1 h0 hs) hit

end Loop

/-! ## Bisection -/

section BisectionFacts

variable {α : Type} [LinearOrderedField α]

theorem bisectionBody_eq (f : α → α) (tol : α) (s : Bracket α) :
    bisectionBody f tol s =
      if |f (1 / 2 * (s.a + s.b))| < tol ∨ (s.b - s.a) / 2 < tol then
        .ret (1 / 2 * (s.a + s.b))
      else if s.fa * f (1 / 2 * (s.a + s.b)) < 0 then
        .next ⟨s.a, 1 / 2 * (s.a + s.b), s.fa, f (1 / 2 * (s.a + s.b))⟩
      else .next ⟨1 / 2 * (s.a + s.b), s.b, f (1 / 2 * (s.a + s.b)), s.fb⟩ := rfl

theorem bisectionBody_ne_fail (f : α → α) (tol : α) (s : Bracket α) (e : RootError) :
    bisectionBody f tol s ≠ .fail e := by
  rw [bisectionBody_eq]
  intro h
  split_ifs at h

/-- The body returns exactly the midpoint, and only under the stopping test. -/
theorem bisectionBody_ret (f : α → α) (tol : α) (s : Bracket α) (c : α)
    (h : bisectionBody f tol s = .ret c) :
    c = (s.a + s.b) / 2 ∧ (|f c| < tol ∨ (s.b - s.a) / 2 < tol) := by
  rw [bisectionBody_eq] at h
  have hc : (1 / 2 : α) * (s.a + s.b) = (s.a + s.b) / 2 := by ring
  split_ifs at h with h1 h2
  · simp only [LoopStep.ret.injEq] at h
    subst h
    exact ⟨hc, h1⟩

/-- The new bracket is the left or the right half of the old one. -/
theorem bisectionBody_next (f : α → α) (tol : α) (s s1 : Bracket α)
    (h : bisectionBody f tol s = .next s1) :
    (s1.a = s.a ∧ s1.b = (s.a + s.b) / 2) ∨ (s1.a = (s.a + s.b) / 2 ∧ s1.b = s.b) := by
  rw [bisectionBody_eq] at h
  have hc : (1 / 2 : α) * (s.a + s.b) = (s.a + s.b) / 2 := by ring
  split_ifs at h with h1 h2
  · simp only [LoopStep.next.injEq] at h
    subst h
    exact Or.inl ⟨rfl, hc⟩
  · simp only [LoopStep.next.injEq] at h
    subst h
    exact Or.inr ⟨hc, rfl⟩

/-- Every bracket the loop reaches lies inside the initial one. -/
theorem bisection_bracket_within (f : α → α) (tol a b : α) (k : Nat) (s0 s : Bracket α)
    (h0 : a ≤ s0.a ∧ s0.a ≤ s0.b ∧ s0.b ≤ b)
    (hit : iterate (bisectionBody f tol) k s0 = some s) :
    a ≤ s.a ∧ s.a ≤ s.b ∧ s.b ≤ b := by
  refine iterate_invariant (bisectionBody f tol) (fun t => a ≤ t.a ∧ t.a ≤ t.b ∧ t.b ≤ b)
    ?_ k s0 s h0 hit
  intro t t1 ⟨h1, h2, h3⟩ hn
  rcases bisectionBody_next f tol t t1 hn with ⟨ha, hb⟩ | ⟨ha, hb⟩
  · rw [ha, hb]
    refine ⟨h1, ?_, ?_⟩ <;> linarith
  · rw [ha, hb]
    refine ⟨?_, ?_, h3⟩ <;> linarith

/-- Over exact arithmetic: a value `c` returned by `bisection` on `a ≤ b` lies in
`[a, b]` and is the midpoint of a bracket `[a_k, b_k] ⊆ [a, b]` reached by the loop
within its budget, with `|f(c)| < tol` or `(b_k - a_k)/2 < tol`.  In binary64 the
sum `a + b` can overflow; that run is traced in the binary64 section. -/
theorem bisection_returns_midpoint (f : α → α) (a b tol c : α) (hab : a ≤ b)
    (h : bisection f a b tol = .ok c) :
    (a ≤ c ∧ c ≤ b) ∧
    ∃ (k : Nat) (s : Bracket α), k < maxIter ∧
      iterate (bisectionBody f tol) k ⟨a, b, f a, f b⟩ = some s ∧
      a ≤ s.a ∧ s.a ≤ s.b ∧ s.b ≤ b ∧ c = (s.a + s.b) / 2 ∧
      (|f c| < tol ∨ (s.b - s.a) / 2 < tol) := by
  unfold bisection at h
  by_cases hp : f a * f b > 0
  · simp [hp] at h
  · simp only [hp, if_false] at h
    obtain ⟨k, s, hk, hit, hb⟩ := (runLoop_ok_iff _ _ _ _ _).1 h
    obtain ⟨h1, h2, h3⟩ :=
      bisection_bracket_within f tol a b k ⟨a, b, f a, f b⟩ s ⟨le_refl _, hab, le_refl _⟩ hit
    obtain ⟨hc, hstop⟩ := bisectionBody_ret f tol s c hb
    refine ⟨?_, k, s, hk, hit, h1, h2, h3, hc, hstop⟩
    rw [hc]
    constructor <;> linarith

/-- At `f(x) = x^2 - 2` on `[0, 2]` with `tol = 1/4`: the value `11/8` is
returned after three halvings. -/
theorem bisection_returns_midpoint_witness :
    (0 : ℚ) ≤ 2 ∧ bisection (fun x : ℚ => x ^ 2 - 2) 0 2 (1 / 4) = .ok (11 / 8) ∧
    ((0 : ℚ) ≤ 11 / 8 ∧ (11 / 8 : ℚ) ≤ 2) ∧
    ∃ (k : Nat) (s : Bracket ℚ), k < maxIter ∧
      iterate (bisectionBody (fun x : ℚ => x ^ 2 - 2) (1 / 4)) k
        ⟨0, 2, (fun x : ℚ => x ^ 2 - 2) 0, (fun x : ℚ => x ^ 2 - 2) 2⟩ = some s ∧
      0 ≤ s.a ∧ s.a ≤ s.b ∧ s.b ≤ 2 ∧ 11 / 8 = (s.a + s.b) / 2 ∧
      (|(fun x : ℚ => x ^ 2 - 2) (11 / 8)| < 1 / 4 ∨ (s.b - s.a) / 2 < 1 / 4) :=
  have h : bisection (fun x : ℚ => x ^ 2 - 2) 0 2 (1 / 4) = .ok (11 / 8) := by
    unfold bisection
    norm_num [maxIter, runLoop, bisectionBody, abs_lt]
  ⟨by norm_num, h,
    bisection_returns_midpoint (fun x : ℚ => x ^ 2 - 2) 0 2 (1 / 4) (11 / 8) (by norm_num) h⟩

end BisectionFacts

/-! ## Bisection over the reals: distance to a root -/

section BisectionReal

theorem strictBracket_step (f : ℝ → ℝ) (a b tol : ℝ) (htol : 0 < tol) (s s1 : Bracket ℝ)
    (hs : StrictBracket f a b s) (hn : bisectionBody f tol s = .next s1) :
    StrictBracket f a b s1 := by
  obtain ⟨hfa, hfb, hsign, h1, h2, h3⟩ := hs
  rw [bisectionBody_eq] at hn
  split_ifs at hn with hstop hlt
  · simp only [LoopStep.next.injEq] at hn
    subst hn
    exact ⟨hfa, rfl, hlt, h1, by simp only; linarith, by simp only; linarith⟩
  · simp only [LoopStep.next.injEq] at hn
    subst hn
    refine ⟨rfl, hfb, ?_, by simp only; linarith, by simp only; linarith, h3⟩
    simp only
    have hfc : ¬ |f (1 / 2 * (s.a + s.b))| < tol := fun h => hstop (Or.inl h)
    have hne : f (1 / 2 * (s.a + s.b)) ≠ 0 := by
      intro h0
      rw [h0, abs_zero] at hfc
      exact hfc htol
    have hge : 0 ≤ s.fa * f (1 / 2 * (s.a + s.b)) := not_lt.1 hlt
    rcases lt_or_gt_of_ne hne with hneg | hpos
    · have hfa0 : s.fa ≤ 0 := by
        by_contra hc
        have := mul_neg_of_pos_of_neg (not_le.1 hc) hneg
        linarith
      have hfb0 : 0 < s.fb := by
        by_contra hc
        have := mul_nonneg_of_nonpos_of_nonpos hfa0 (not_lt.1 hc)
        linarith
      exact mul_neg_of_neg_of_pos hneg hfb0
    · have hfa0 : 0 ≤ s.fa := by
        by_contra hc
        have := mul_neg_of_neg_of_pos (not_le.1 hc) hpos
        linarith
      have hfb0 : s.fb < 0 := by
        by_contra hc
        have := mul_nonneg hfa0 (not_lt.1 hc)
        linarith
      exact mul_neg_of_pos_of_neg hpos hfb0

/-- A continuous function with strictly opposite signs at the ends of an
interval has a root in it. -/
theorem root_of_sign_change (f : ℝ → ℝ) (hf : Continuous f) (p q : ℝ) (hpq : p ≤ q)
    (hsign : f p * f q < 0) : ∃ r, p ≤ r ∧ r ≤ q ∧ f r = 0 := by
  rcases lt_or_le (f p) 0 with hneg | hnn
  · have hq : 0 < f q := by
      by_contra hc
      have := mul_nonneg_of_nonpos_of_nonpos hneg.le (not_lt.1 hc)
      linarith
    obtain ⟨r, hr, hr0⟩ := intermediate_value_Icc hpq hf.continuousOn
      (show (0 : ℝ) ∈ Set.Icc (f p) (f q) from ⟨hneg.le, hq.le⟩)
    exact ⟨r, hr.1, hr.2, hr0⟩
  · have hq : f q ≤ 0 := by
      by_contra hc
      have := mul_nonneg hnn (not_le.1 hc).le
      linarith
    obtain ⟨r, hr, hr0⟩ := intermediate_value_Icc' hpq hf.continuousOn
      (show (0 : ℝ) ∈ Set.Icc (f q) (f p) from ⟨hq, hnn⟩)
    exact ⟨r, hr.1, hr.2, hr0⟩

/-- C3 (amended). Over exact arithmetic: for continuous `f`, `a < b`,
`f(a) * f(b) < 0` and `tol > 0`, a value `x` returned by `bisection` has a root
`r` of `f` in `[a, b]` such that `|f(x)| < tol` or `|x - r| < tol`.  Runs in
which a product of the sign test underflows in binary64 are left out. -/
theorem bisection_near_root_or_small_residual (f : ℝ → ℝ) (a b tol x : ℝ)
    (hf : Continuous f) (hab : a < b) (hsign : f a * f b < 0) (htol : 0 < tol)
    (h : bisection f a b tol = .ok x) :
    ∃ r, a ≤ r ∧ r ≤ b ∧ f r = 0 ∧ (|f x| < tol ∨ |x - r| < tol) := by
  unfold bisection at h
  have hp : ¬ f a * f b > 0 := not_lt.2 hsign.le
  simp only [hp, if_false] at h
  obtain ⟨k, s, _, hit, hb⟩ := (runLoop_ok_iff _ _ _ _ _).1 h
  have hinv : StrictBracket f a b s :=
    iterate_invariant (bisectionBody f tol) (StrictBracket f a b)
      (fun t t1 ht hn => strictBracket_step f a b tol htol t t1 ht hn) k
      ⟨a, b, f a, f b⟩ s ⟨rfl, rfl, hsign, le_refl _, hab.le, le_refl _⟩ hit
  obtain ⟨hfa, hfb, hs, h1, h2, h3⟩ := hinv
  obtain ⟨hc, hstop⟩ := bisectionBody_ret f tol s x hb
  rw [hfa, hfb] at hs
  obtain ⟨r, hr1, hr2, hr0⟩ := root_of_sign_change f hf s.a s.b h2 hs
  refine ⟨r, le_trans h1 hr1, le_trans hr2 h3, hr0, ?_⟩
  rcases hstop with hres | hwid
  · exact Or.inl hres
  · right
    rw [abs_lt, hc]
    constructor <;> linarith

/-- C3 at `f(x) = x^2 - 2` on `[0, 2]` with `tol = 1/4`, where `11/8` is returned. -/
theorem bisection_near_root_or_small_residual_witness :
    Continuous (fun x : ℝ => x ^ 2 - 2) ∧ (0 : ℝ) < 2 ∧
    (fun x : ℝ => x ^ 2 - 2) 0 * (fun x : ℝ => x ^ 2 - 2) 2 < 0 ∧ (0 : ℝ) < 1 / 4 ∧
    bisection (fun x : ℝ => x ^ 2 - 2) 0 2 (1 / 4) = .ok (11 / 8) ∧
    ∃ r : ℝ, 0 ≤ r ∧ r ≤ 2 ∧ (fun x : ℝ => x ^ 2 - 2) r = 0 ∧
      (|(fun x : ℝ => x ^ 2 - 2) (11 / 8)| < 1 / 4 ∨ |11 / 8 - r| < 1 / 4) :=
  have hf : Continuous (fun x : ℝ => x ^ 2 - 2) := by fun_prop
  have h : bisection (fun x : ℝ => x ^ 2 - 2) 0 2 (1 / 4) = .ok (11 / 8) := by
    unfold bisection
    norm_num [maxIter, runLoop, bisectionBody, abs_lt]
  ⟨hf, by norm_num, by norm_num, by norm_num, h,
    bisection_near_root_or_small_residual (fun x : ℝ => x ^ 2 - 2) 0 2 (1 / 4) (11 / 8)
      hf (by norm_num) (by norm_num) (by norm_num) h⟩

/-- A flat line through the origin: on `[-M, 3M]` with `tol = 1` the first
midpoint `M` has residual `1/2` and is returned, at distance `M` from the only
root `0`. -/
theorem bisection_flat_line (M : ℝ) (hM : 0 < M) :
    bisection (fun x : ℝ => x / (2 * M)) (-M) (3 * M) 1 = .ok M := by
  have hM0 : M ≠ 0 := hM.ne.symm
  have hmid : (1 / 2 : ℝ) * (-M + 3 * M) = M := by ring
  have hval : M / (2 * M) = 1 / 2 := by field_simp; ring
  have hbody : bisectionBody (fun x : ℝ => x / (2 * M)) 1
      ⟨-M, 3 * M, -M / (2 * M), 3 * M / (2 * M)⟩ = .ret M := by
    rw [bisectionBody_eq]
    simp only [hmid, hval]
    rw [if_pos]
    left
    rw [abs_lt]
    constructor <;> norm_num
  have hsign : ¬ (-M / (2 * M) * (3 * M / (2 * M)) > 0) := by
    have h1 : -M / (2 * M) = -(1 / 2) := by field_simp; ring
    have h2 : 3 * M / (2 * M) = 3 / 2 := by field_simp; ring
    rw [h1, h2]
    norm_num
  unfold bisection
  simp only [hsign, if_false]
  exact runLoop_ret _ _ 999999 _ M hbody

/-- C3 as stated fails: no constant `K` bounds the distance from the returned
value to a root by `K * tol`, even for continuous `f` with a strict sign change. -/
theorem bisection_no_uniform_root_distance :
    ¬ ∃ K : ℝ, ∀ (f : ℝ → ℝ) (a b tol x : ℝ), Continuous f → a < b → f a * f b < 0 →
      0 < tol → bisection f a b tol = .ok x →
      ∃ r, a ≤ r ∧ r ≤ b ∧ f r = 0 ∧ |x - r| ≤ K * tol := by
  rintro ⟨K, hK⟩
  have hM : (0 : ℝ) < |K| + 1 := by positivity
  have hM0 : |K| + 1 ≠ 0 := hM.ne.symm
  have hcont : Continuous (fun x : ℝ => x / (2 * (|K| + 1))) := by fun_prop
  have hs : (fun x : ℝ => x / (2 * (|K| + 1))) (-(|K| + 1)) *
      (fun x : ℝ => x / (2 * (|K| + 1))) (3 * (|K| + 1)) < 0 := by
    have h1 : -(|K| + 1) / (2 * (|K| + 1)) = -(1 / 2) := by field_simp; ring
    have h2 : 3 * (|K| + 1) / (2 * (|K| + 1)) = 3 / 2 := by field_simp; ring
    simp only [h1, h2]
    norm_num
  obtain ⟨r, _, _, hr0, hdist⟩ :=
    hK (fun x : ℝ => x / (2 * (|K| + 1))) (-(|K| + 1)) (3 * (|K| + 1)) 1 (|K| + 1)
      hcont (by linarith) hs one_pos (bisection_flat_line (|K| + 1) hM)
  have hr : r = 0 := by
    simp only [div_eq_zero_iff] at hr0
    rcases hr0 with h | h
    · exact h
    · exfalso; linarith
  rw [hr, sub_zero, abs_of_pos hM, mul_one] at hdist
  have := le_abs_self K
  linarith

end BisectionReal

/-! ## Regula falsi -/

section RegulaFalsiFacts

variable {α : Type} [LinearOrderedField α]

theorem regulaFalsiBody_eq (f : α → α) (tol : α) (s : Bracket α) :
    regulaFalsiBody f tol s =
      if |f ((s.a * s.fb - s.b * s.fa) / (s.fb - s.fa))| < tol then
        .ret ((s.a * s.fb - s.b * s.fa) / (s.fb - s.fa))
      else if s.fa * f ((s.a * s.fb - s.b * s.fa) / (s.fb - s.fa)) < 0 then
        .next ⟨s.a, (s.a * s.fb - s.b * s.fa) / (s.fb - s.fa), s.fa,
          f ((s.a * s.fb - s.b * s.fa) / (s.fb - s.fa))⟩
      else .next ⟨(s.a * s.fb - s.b * s.fa) / (s.fb - s.fa), s.b,
          f ((s.a * s.fb - s.b * s.fa) / (s.fb - s.fa)), s.fb⟩ := rfl

/-- The body returns exactly the interpolation point, and only when the
residual there is below `tol`. -/
theorem regulaFalsiBody_ret (f : α → α) (tol : α) (s : Bracket α) (c : α)
    (h : regulaFalsiBody f tol s = .ret c) :
    c = (s.a * s.fb - s.b * s.fa) / (s.fb - s.fa) ∧ |f c| < tol := by
  rw [regulaFalsiBody_eq] at h
  split_ifs at h with h1 h2
  · simp only [LoopStep.ret.injEq] at h
    subst h
    exact ⟨rfl, h1⟩

/-- With a residual not below `tol` the body goes round again, whatever the
width of the bracket. -/
theorem regulaFalsiBody_continues (f : α → α) (tol : α) (s : Bracket α)
    (h : ¬ |f ((s.a * s.fb - s.b * s.fa) / (s.fb - s.fa))| < tol) :
    ∃ s1, regulaFalsiBody f tol s = .next s1 := by
  rw [regulaFalsiBody_eq, if_neg h]
  split_ifs
  · exact ⟨_, rfl⟩
  · exact ⟨_, rfl⟩

/-- C5. A value `c` returned by `regula_falsi` has `|f(c)| < tol` and is the
interpolation point of a bracket reached within the budget; and at any bracket
whose interpolation point has residual not below `tol` the loop goes on,
however narrow the bracket. -/
theorem regula_falsi_returns_small_residual (f : α → α) (a b tol c : α)
    (h : regula_falsi f a b tol = .ok c) :
    |f c| < tol ∧
    (∃ (k : Nat) (s : Bracket α), k < maxIter ∧
      iterate (regulaFalsiBody f tol) k ⟨a, b, f a, f b⟩ = some s ∧
      c = (s.a * s.fb - s.b * s.fa) / (s.fb - s.fa)) ∧
    (∀ s : Bracket α, ¬ |f ((s.a * s.fb - s.b * s.fa) / (s.fb - s.fa))| < tol →
      ∃ s1, regulaFalsiBody f tol s = .next s1) := by
  unfold regula_falsi at h
  by_cases hp : f a * f b > 0
  · simp [hp] at h
  · simp only [hp, if_false] at h
    obtain ⟨k, s, hk, hit, hb⟩ := (runLoop_ok_iff _ _ _ _ _).1 h
    obtain ⟨hc, hres⟩ := regulaFalsiBody_ret f tol s c hb
    exact ⟨hres, ⟨k, s, hk, hit, hc⟩, fun t ht => regulaFalsiBody_continues f tol t ht⟩

/-- C5 at `f(x) = x^2 - 2` on `[0, 2]` with `tol = 1/4`: `4/3` is returned, with
residual `2/9`. -/
theorem regula_falsi_returns_small_residual_witness :
    regula_falsi (fun x : ℚ => x ^ 2 - 2) 0 2 (1 / 4) = .ok (4 / 3) ∧
    |(fun x : ℚ => x ^ 2 - 2) (4 / 3)| < 1 / 4 :=
  have h : regula_falsi (fun x : ℚ => x ^ 2 - 2) 0 2 (1 / 4) = .ok (4 / 3) := by
    unfold regula_falsi
    norm_num [maxIter, runLoop, regulaFalsiBody, abs_lt]
  ⟨h, (regula_falsi_returns_small_residual (fun x : ℚ => x ^ 2 - 2) 0 2 (1 / 4) (4 / 3) h).1⟩

end RegulaFalsiFacts

/-! ## Newton-Raphson -/

section NewtonFacts

variable {α : Type} [LinearOrderedField α]

theorem newtonBody_eq (f df : α → α) (tol x : α) :
    newtonBody f df tol x =
      if |df x| ≤ degeneracyEps then .fail .zeroDerivative
      else if |x - f x / df x - x| < tol then .ret (x - f x / df x)
      else .next (x - f x / df x) := rfl

/-- The three exits of the body, each with its exact condition. -/
theorem newtonBody_fail_iff (f df : α → α) (tol x : α) (e : RootError) :
    newtonBody f df tol x = .fail e ↔ |df x| ≤ degeneracyEps ∧ e = .zeroDerivative := by
  rw [newtonBody_eq]
  split_ifs with h1 h2
  · simp only [LoopStep.fail.injEq, h1, true_and]
    exact eq_comm
  · simp [h1]
  · simp [h1]

theorem newtonBody_ret_iff (f df : α → α) (tol x v : α) :
    newtonBody f df tol x = .ret v ↔
      degeneracyEps < |df x| ∧ v = x - f x / df x ∧ |v - x| < tol := by
  rw [newtonBody_eq]
  split_ifs with h1 h2
  · simp [not_lt.2 h1]
  · simp only [LoopStep.ret.injEq, not_le.1 h1, true_and]
    constructor
    · intro h; subst h; exact ⟨rfl, h2⟩
    · intro h; exact h.1.symm
  · simp only [not_le.1 h1, true_and, false_iff, not_and]
    intro h; subst h; exact h2

theorem newtonBody_next_iff (f df : α → α) (tol x y : α) :
    newtonBody f df tol x = .next y ↔
      degeneracyEps < |df x| ∧ y = x - f x / df x ∧ ¬ |y - x| < tol := by
  rw [newtonBody_eq]
  split_ifs with h1 h2
  · simp [not_lt.2 h1]
  · simp only [not_le.1 h1, true_and, false_iff, not_and, not_not]
    intro h; subst h; exact h2
  · simp only [LoopStep.next.injEq, not_le.1 h1, true_and]
    constructor
    · intro h; subst h; exact ⟨rfl, h2⟩
    · intro h; exact h.1.symm

/-- The state after `k` rounds is the `k`-fold Newton step of `x0`. -/
theorem newton_iterate_eq (f df : α → α) (tol : α) :
    ∀ (k : Nat) (x0 x : α), iterate (newtonBody f df tol) k x0 = some x →
      x = (fun y => y - f y / df y)^[k] x0 := by
  intro k
  induction k with
  | zero =>
    intro x0 x h
    simp only [iterate, Option.some.injEq] at h
    simp [h]
  | succ k ih =>
    intro x0 x h
    simp only [iterate] at h
    cases hs : newtonBody f df tol x0 with
    | ret w => simp [hs] at h
    | fail e => simp [hs] at h
    | next y =>
      simp only [hs] at h
      have hy := ((newtonBody_next_iff f df tol x0 y).1 hs).2.1
      rw [Function.iterate_succ_apply, ← hy]
      exact ih y x h

/-- C6. When the derivative at an iterate `x` reached within the budget has
`|df(x)| ≤ 1e-12`, the body throws the zero-derivative error there and that is
the result of `newton_raphson`; with `df` identically zero this happens on the
first pass, for every `x0` and `tol`. -/
theorem newton_zeroDerivative (f df : α → α) (x0 tol : α) :
    (∀ (k : Nat) (x : α), k < maxIter → iterate (newtonBody f df tol) k x0 = some x →
      |df x| ≤ degeneracyEps →
      newtonBody f df tol x = .fail .zeroDerivative ∧
      newton_raphson f df x0 tol = .error .zeroDerivative) ∧
    ((∀ y, df y = 0) →
      newtonBody f df tol x0 = .fail .zeroDerivative ∧
      runLoop (newtonBody f df tol) .newtonDidNotConverge 1 x0 = .error .zeroDerivative ∧
      newton_raphson f df x0 tol = .error .zeroDerivative) := by
  constructor
  · intro k x hk hit hd
    have hb : newtonBody f df tol x = .fail .zeroDerivative :=
      (newtonBody_fail_iff f df tol x _).2 ⟨hd, rfl⟩
    exact ⟨hb, runLoop_of_iterate_fail _ _ k maxIter x0 x _ hk hit hb⟩
  · intro hz
    have hd : |df x0| ≤ (degeneracyEps : α) := by
      rw [hz x0, abs_zero]
      unfold degeneracyEps
      positivity
    have hb : newtonBody f df tol x0 = .fail .zeroDerivative :=
      (newtonBody_fail_iff f df tol x0 _).2 ⟨hd, rfl⟩
    exact ⟨hb, runLoop_fail _ _ 0 x0 _ hb, runLoop_fail _ _ 999999 x0 _ hb⟩

/-- C6 at `f(x) = x^2 + 1`, `df(x) = 2x`, `x0 = 1`: the second iterate is `0`,
where the derivative vanishes. -/
theorem newton_zeroDerivative_witness :
    newton_raphson (fun x : ℚ => x ^ 2 + 1) (fun x : ℚ => 2 * x) 1 (1 / 1000000) =
      .error .zeroDerivative :=
  ((newton_zeroDerivative (fun x : ℚ => x ^ 2 + 1) (fun x : ℚ => 2 * x) 1 (1 / 1000000)).1
    1 0 (by norm_num [maxIter])
    (by norm_num [iterate, newtonBody, degeneracyEps, abs_lt, abs_le])
    (by norm_num [degeneracyEps])).2

/-- C8. A value `xn` returned by `newton_raphson` is one Newton step from an
iterate `x`, the `k`-fold Newton step of `x0` for some `k` within the budget,
with `|df(x)| > 1e-12` and `|xn - x| < tol`; and the body returns exactly under
that step-size test, whatever the residual. -/
theorem newton_returns_small_step (f df : α → α) (x0 tol xn : α)
    (h : newton_raphson f df x0 tol = .ok xn) :
    (∃ (k : Nat) (x : α), k < maxIter ∧ iterate (newtonBody f df tol) k x0 = some x ∧
      x = (fun y => y - f y / df y)^[k] x0 ∧
      degeneracyEps < |df x| ∧ xn = x - f x / df x ∧ |xn - x| < tol) ∧
    (∀ x v : α, newtonBody f df tol x = .ret v ↔
      degeneracyEps < |df x| ∧ v = x - f x / df x ∧ |v - x| < tol) := by
  unfold newton_raphson at h
  obtain ⟨k, x, hk, hit, hb⟩ := (runLoop_ok_iff _ _ _ _ _).1 h
  obtain ⟨h1, h2, h3⟩ := (newtonBody_ret_iff f df tol x xn).1 hb
  exact ⟨⟨k, x, hk, hit, newton_iterate_eq f df tol k x0 x hit, h1, h2, h3⟩,
    fun y v => newtonBody_ret_iff f df tol y v⟩

/-- C8 at `f(x) = x^2 - 2`, `df(x) = 2x`, `x0 = 1`, `tol = 1/4`: `17/12` is
returned after two steps, the last of size `1/12`. -/
theorem newton_returns_small_step_witness :
    newton_raphson (fun x : ℚ => x ^ 2 - 2) (fun x : ℚ => 2 * x) 1 (1 / 4) = .ok (17 / 12) ∧
    ∃ (k : Nat) (x : ℚ), k < maxIter ∧
      iterate (newtonBody (fun x : ℚ => x ^ 2 - 2) (fun x : ℚ => 2 * x) (1 / 4)) k 1 = some x ∧
      x = (fun y => y - (fun x : ℚ => x ^ 2 - 2) y / (fun x : ℚ => 2 * x) y)^[k] 1 ∧
      degeneracyEps < |(fun x : ℚ => 2 * x) x| ∧
      17 / 12 = x - (fun x : ℚ => x ^ 2 - 2) x / (fun x : ℚ => 2 * x) x ∧
      |17 / 12 - x| < 1 / 4 :=
  have h : newton_raphson (fun x : ℚ => x ^ 2 - 2) (fun x : ℚ => 2 * x) 1 (1 / 4) =
      .ok (17 / 12) := by
    unfold newton_raphson
    norm_num [maxIter, runLoop, newtonBody, degeneracyEps, abs_lt, abs_le]
  ⟨h, (newton_returns_small_step (fun x : ℚ => x ^ 2 - 2) (fun x : ℚ => 2 * x) 1 (1 / 4)
    (17 / 12) h).1⟩

end NewtonFacts

/-! ## Secant -/

section SecantFacts

variable {α : Type} [LinearOrderedField α]

theorem secantBody_eq (f : α → α) (tol : α) (s : SecantState α) :
    secantBody f tol s =
      if |s.f1 - s.f0| ≤ degeneracyEps then .fail .secantDivisionByZero
      else if |s.x0 - s.f0 * (s.x1 - s.x0) / (s.f1 - s.f0) - s.x1| < tol then
        .ret (s.x0 - s.f0 * (s.x1 - s.x0) / (s.f1 - s.f0))
      else .next ⟨s.x1, s.x0 - s.f0 * (s.x1 - s.x0) / (s.f1 - s.f0), s.f1,
        f (s.x0 - s.f0 * (s.x1 - s.x0) / (s.f1 - s.f0))⟩ := rfl

theorem secantBody_ret_iff (f : α → α) (tol : α) (s : SecantState α) (v : α) :
    secantBody f tol s = .ret v ↔
      degeneracyEps < |s.f1 - s.f0| ∧
      v = s.x0 - s.f0 * (s.x1 - s.x0) / (s.f1 - s.f0) ∧ |v - s.x1| < tol := by
  rw [secantBody_eq]
  split_ifs with h1 h2
  · simp [not_lt.2 h1]
  · simp only [LoopStep.ret.injEq, not_le.1 h1, true_and]
    constructor
    · intro h; subst h; exact ⟨rfl, h2⟩
    · intro h; exact h.1.symm
  · simp only [not_le.1 h1, true_and, false_iff, not_and]
    intro h; subst h; exact h2

/-- The cached values of every window the loop reaches are the function values
at its two points. -/
theorem secant_cache (f : α → α) (tol : α) (k : Nat) (x0 x1 : α) (s : SecantState α)
    (hit : iterate (secantBody f tol) k ⟨x0, x1, f x0, f x1⟩ = some s) :
    s.f0 = f s.x0 ∧ s.f1 = f s.x1 := by
  refine iterate_invariant (secantBody f tol) (fun t => t.f0 = f t.x0 ∧ t.f1 = f t.x1)
    ?_ k ⟨x0, x1, f x0, f x1⟩ s ⟨rfl, rfl⟩ hit
  intro t t1 ⟨_, h1⟩ hn
  rw [secantBody_eq] at hn
  split_ifs at hn
  simp only [LoopStep.next.injEq] at hn
  subst hn
  exact ⟨h1, rfl⟩

/-- C9. A value `xn1` returned by `secant` is the secant point of a window
`(p, q)` reached from `(x0, x1)` within the budget, with
`|f(q) - f(p)| > 1e-12` and `|xn1 - q| < tol`; and the body returns exactly
under that test on the distance to the previous `x1`. -/
theorem secant_returns_small_step (f : α → α) (x0 x1 tol xn1 : α)
    (h : secant f x0 x1 tol = .ok xn1) :
    (∃ (k : Nat) (s : SecantState α), k < maxIter ∧
      iterate (secantBody f tol) k ⟨x0, x1, f x0, f x1⟩ = some s ∧
      s.f0 = f s.x0 ∧ s.f1 = f s.x1 ∧
      degeneracyEps < |f s.x1 - f s.x0| ∧
      xn1 = s.x0 - f s.x0 * (s.x1 - s.x0) / (f s.x1 - f s.x0) ∧
      |xn1 - s.x1| < tol) ∧
    (∀ (s : SecantState α) (v : α), secantBody f tol s = .ret v ↔
      degeneracyEps < |s.f1 - s.f0| ∧
      v = s.x0 - s.f0 * (s.x1 - s.x0) / (s.f1 - s.f0) ∧ |v - s.x1| < tol) := by
  unfold secant at h
  obtain ⟨k, s, hk, hit, hb⟩ := (runLoop_ok_iff _ _ _ _ _).1 h
  obtain ⟨h0, h1⟩ := secant_cache f tol k x0 x1 s hit
  obtain ⟨hd, hv, hstep⟩ := (secantBody_ret_iff f tol s xn1).1 hb
  rw [h0, h1] at hd hv
  exact ⟨⟨k, s, hk, hit, h0, h1, hd, hv, hstep⟩, fun t v => secantBody_ret_iff f tol t v⟩

/-- C9 at `f(x) = x^2 - 2`, `x0 = 1`, `x1 = 2`, `tol = 1/4`: `7/5` is returned
on the second pass, from the window `(2, 4/3)`. -/
theorem secant_returns_small_step_witness :
    secant (fun x : ℚ => x ^ 2 - 2) 1 2 (1 / 4) = .ok (7 / 5) ∧
    ∃ (k : Nat) (s : SecantState ℚ), k < maxIter ∧
      iterate (secantBody (fun x : ℚ => x ^ 2 - 2) (1 / 4)) k
        ⟨1, 2, (fun x : ℚ => x ^ 2 - 2) 1, (fun x : ℚ => x ^ 2 - 2) 2⟩ = some s ∧
      s.f0 = (fun x : ℚ => x ^ 2 - 2) s.x0 ∧ s.f1 = (fun x : ℚ => x ^ 2 - 2) s.x1 ∧
      degeneracyEps < |(fun x : ℚ => x ^ 2 - 2) s.x1 - (fun x : ℚ => x ^ 2 - 2) s.x0| ∧
      7 / 5 = s.x0 - (fun x : ℚ => x ^ 2 - 2) s.x0 * (s.x1 - s.x0) /
        ((fun x : ℚ => x ^ 2 - 2) s.x1 - (fun x : ℚ => x ^ 2 - 2) s.x0) ∧
      |7 / 5 - s.x1| < 1 / 4 :=
  have h : secant (fun x : ℚ => x ^ 2 - 2) 1 2 (1 / 4) = .ok (7 / 5) := by
    unfold secant
    norm_num [maxIter, runLoop, secantBody, degeneracyEps, abs_lt, abs_le]
  ⟨h, (secant_returns_small_step (fun x : ℚ => x ^ 2 - 2) 1 2 (1 / 4) (7 / 5) h).1⟩

end SecantFacts

/-! ## Local maximum -/

section LocalmaxFacts

variable {α : Type} [LinearOrderedField α]

/-- C10. `localmax` passes an error of `bisection(df, a, b, tol)` on unchanged;
when `bisection` returns `x` it returns that `x` if `ddf(x) < 0` and throws the
no-local-maximum error if `ddf(x) ≥ 0`. -/
theorem localmax_cases (f df ddf : α → α) (a b tol : α) :
    (∀ e, bisection df a b tol = .error e → localmax f df ddf a b tol = .error e) ∧
    (∀ x, bisection df a b tol = .ok x → ddf x < 0 → localmax f df ddf a b tol = .ok x) ∧
    (∀ x, bisection df a b tol = .ok x → 0 ≤ ddf x →
      localmax f df ddf a b tol = .error .noLocalMaximum) := by
  refine ⟨?_, ?_, ?_⟩
  · intro e h
    unfold localmax
    rw [h]
  · intro x h hd
    unfold localmax
    rw [h]
    simp only [hd, if_true]
  · intro x h hd
    unfold localmax
    rw [h]
    simp only [not_lt.2 hd, if_false]

/-- Scenario 4: `df(x) = -2(x - 3)`, `ddf(x) = -2` on `[0, 6]` returns exactly `3`. -/
theorem localmax_parabola :
    localmax (fun x : ℚ => -(x - 3) ^ 2) (fun x : ℚ => -2 * (x - 3)) (fun _ : ℚ => -2)
      0 6 (1 / 1000000) = .ok 3 :=
  (localmax_cases (fun x : ℚ => -(x - 3) ^ 2) (fun x : ℚ => -2 * (x - 3)) (fun _ : ℚ => -2)
    0 6 (1 / 1000000)).2.1 3
    (by unfold bisection; norm_num [maxIter, runLoop, bisectionBody, abs_lt])
    (by norm_num)

end LocalmaxFacts

/-! ## Concrete scenarios -/

section Scenarios

/-- A point `c ≥ 1` whose square is within `2e-6` of `2` is within `1e-6` of `√2`. -/
theorem near_sqrt_two (c : ℝ) (hc : 1 ≤ c) (h : |c ^ 2 - 2| ≤ 2 / 10 ^ 6) :
    |c - Real.sqrt 2| ≤ 1 / 10 ^ 6 := by
  have hs2 : Real.sqrt 2 ^ 2 = 2 := Real.sq_sqrt (by norm_num)
  have hs0 : 0 ≤ Real.sqrt 2 := Real.sqrt_nonneg 2
  have hs1 : 1 ≤ Real.sqrt 2 := by
    by_contra hlt
    have hlt1 : Real.sqrt 2 < 1 := not_le.1 hlt
    nlinarith
  obtain ⟨hl, hu⟩ := abs_le.1 h
  rw [abs_le]
  constructor
  · nlinarith
  · nlinarith

set_option maxRecDepth 100000 in
/-- Scenario 1, bisection: the midpoint `1482911/1048576` is returned on the
21st pass, by the half-width test. -/
theorem bisection_sqrt_two_value :
    bisection (fun x : ℝ => x ^ 2 - 2) 0 2 (1 / 10 ^ 6) = .ok (1482911 / 1048576) := by
  unfold bisection
  norm_num [maxIter, runLoop, bisectionBody, abs_lt]

set_option maxRecDepth 100000 in
/-- Scenario 1, regula falsi: the point `4756/3363` is returned on the 10th pass. -/
theorem regula_falsi_sqrt_two_value :
    regula_falsi (fun x : ℝ => x ^ 2 - 2) 0 2 (1 / 10 ^ 6) = .ok (4756 / 3363) := by
  unfold regula_falsi
  norm_num [maxIter, runLoop, regulaFalsiBody, abs_lt]

/-- C11. On `f(x) = x^2 - 2`, `[0, 2]`, `tol = 1e-6`, `bisection` and
`regula_falsi` each return a value `c` with `|c - √2| ≤ 1e-6`, `c > 0` and
`|c^2 - 2| ≤ 3e-6`. -/
theorem scenario_sqrt_two :
    (∃ c : ℝ, bisection (fun x : ℝ => x ^ 2 - 2) 0 2 (1 / 10 ^ 6) = .ok c ∧
      |c - Real.sqrt 2| ≤ 1 / 10 ^ 6 ∧ 0 < c ∧ |c ^ 2 - 2| ≤ 3 / 10 ^ 6) ∧
    (∃ c : ℝ, regula_falsi (fun x : ℝ => x ^ 2 - 2) 0 2 (1 / 10 ^ 6) = .ok c ∧
      |c - Real.sqrt 2| ≤ 1 / 10 ^ 6 ∧ 0 < c ∧ |c ^ 2 - 2| ≤ 3 / 10 ^ 6) := by
  constructor
  · refine ⟨1482911 / 1048576, bisection_sqrt_two_value, ?_, by norm_num, ?_⟩
    · exact near_sqrt_two _ (by norm_num) (by rw [abs_le]; constructor <;> norm_num)
    · rw [abs_le]; constructor <;> norm_num
  · refine ⟨4756 / 3363, regula_falsi_sqrt_two_value, ?_, by norm_num, ?_⟩
    · exact near_sqrt_two _ (by norm_num) (by rw [abs_le]; constructor <;> norm_num)
    · rw [abs_le]; constructor <;> norm_num

set_option maxRecDepth 100000 in
/-- C12. On `f(x) = x^3 - x - 2`, `x0 = 1`, `x1 = 2`, `tol = 1e-6`, `secant`
returns a value `x` with `|x - 1.52137971| ≤ 1e-6`. -/
theorem scenario_secant_cubic :
    ∃ x : ℚ, secant (fun x : ℚ => x ^ 3 - x - 2) 1 2 (1 / 10 ^ 6) = .ok x ∧
      |x - 152137971 / 10 ^ 8| ≤ 1 / 10 ^ 6 := by
  unfold secant
  norm_num [maxIter, runLoop, secantBody, degeneracyEps, abs_lt, abs_le]

end Scenarios

/-! ## Bisection: the bracket invariant and halving -/

section BisectionInvariant

variable {α : Type} [LinearOrderedField α]

/-- C13 fails at a root sitting on the left endpoint: `f(x) = x` on `[0, 4]`
meets `f(a) * f(b) ≤ 0`, yet after the first update the stored values are
`fa = 2`, `fb = 4` with `fa * fb > 0`, and the call returns `4194303/1048576`,
next to `b = 4` and far from the root `0`. -/
theorem bisection_bracket_lost_at_left_root :
    (fun x : ℚ => x) 0 * (fun x : ℚ => x) 4 ≤ 0 ∧
    bisectionBody (fun x : ℚ => x) (1 / 10 ^ 6) ⟨0, 4, 0, 4⟩ = .next ⟨2, 4, 2, 4⟩ ∧
    (0 : ℚ) < 2 * 4 ∧
    bisection (fun x : ℚ => x) 0 4 (1 / 10 ^ 6) = .ok (4194303 / 1048576) := by
  refine ⟨by norm_num, ?_, by norm_num, ?_⟩
  · rw [bisectionBody_eq]
    norm_num [abs_lt]
  · unfold bisection
    norm_num [maxIter, runLoop, bisectionBody, abs_lt]

/-- Away from that case the invariant holds: with `tol > 0`, `f(a) ≠ 0` and
`f(a) * f(b) ≤ 0`, every bracket the loop reaches has `fa ≠ 0` and `fa * fb ≤ 0`. -/
theorem bisection_bracket_invariant_of_ne (f : α → α) (a b tol : α) (htol : 0 < tol)
    (hfa : f a ≠ 0) (hsign : f a * f b ≤ 0) (k : Nat) (s : Bracket α)
    (hit : iterate (bisectionBody f tol) k ⟨a, b, f a, f b⟩ = some s) :
    s.fa ≠ 0 ∧ s.fa * s.fb ≤ 0 := by
  refine iterate_invariant (bisectionBody f tol) (fun t => t.fa ≠ 0 ∧ t.fa * t.fb ≤ 0)
    ?_ k ⟨a, b, f a, f b⟩ s ⟨hfa, hsign⟩ hit
  intro t t1 ⟨hne, hle⟩ hn
  rw [bisectionBody_eq] at hn
  split_ifs at hn with hstop hlt
  · simp only [LoopStep.next.injEq] at hn
    subst hn
    exact ⟨hne, hlt.le⟩
  · simp only [LoopStep.next.injEq] at hn
    subst hn
    simp only
    have hfc : f (1 / 2 * (t.a + t.b)) ≠ 0 := by
      intro h0
      apply hstop
      left
      rw [h0, abs_zero]
      exact htol
    refine ⟨hfc, ?_⟩
    have hge : 0 ≤ t.fa * f (1 / 2 * (t.a + t.b)) := not_lt.1 hlt
    rcases lt_or_gt_of_ne hne with hneg | hpos
    · have h1 : f (1 / 2 * (t.a + t.b)) ≤ 0 := by
        by_contra hc
        exact absurd (mul_neg_of_neg_of_pos hneg (not_le.1 hc)) (not_lt.2 hge)
      have h2 : 0 ≤ t.fb := by
        by_contra hc
        exact absurd (mul_pos_of_neg_of_neg hneg (not_le.1 hc)) (not_lt.2 hle)
      exact mul_nonpos_iff.2 (Or.inr ⟨h1, h2⟩)
    · have h1 : 0 ≤ f (1 / 2 * (t.a + t.b)) := by
        by_contra hc
        exact absurd (mul_neg_of_pos_of_neg hpos (not_le.1 hc)) (not_lt.2 hge)
      have h2 : t.fb ≤ 0 := by
        by_contra hc
        exact absurd (mul_pos hpos (not_le.1 hc)) (not_lt.2 hle)
      exact mul_nonpos_iff.2 (Or.inl ⟨h1, h2⟩)

/-- Appending one more round to `k` rounds. -/
theorem iterate_snoc {σ β : Type} (body : σ → LoopStep σ β) :
    ∀ (k : Nat) (s0 s s1 : σ), iterate body k s0 = some s → body s = .next s1 →
      iterate body (k + 1) s0 = some s1 := by
  intro k
  induction k with
  | zero =>
    intro s0 s s1 hit hb
    simp only [iterate, Option.some.injEq] at hit
    subst hit
    simp [iterate, hb]
  | succ k ih =>
    intro s0 s s1 hit hb
    simp only [iterate] at hit
    cases hs : body s0 with
    | ret w => simp [hs] at hit
    | fail e => simp [hs] at hit
    | next t =>
      simp only [hs] at hit
      rw [iterate_succ_next body (k + 1) s0 t hs]
      exact ih t s s1 hit hb

/-- A loop whose body never throws has, after `k` rounds, either a current
state or a return at an earlier round. -/
theorem iterate_progress {σ β : Type} (body : σ → LoopStep σ β)
    (hnofail : ∀ s e, body s ≠ .fail e) (s0 : σ) :
    ∀ k : Nat, (∃ s, iterate body k s0 = some s) ∨
      ∃ (j : Nat) (s : σ) (v : β), j < k ∧ iterate body j s0 = some s ∧ body s = .ret v := by
  intro k
  induction k with
  | zero => exact Or.inl ⟨s0, rfl⟩
  | succ k ih =>
    rcases ih with ⟨s, hs⟩ | ⟨j, s, v, hj, hit, hb⟩
    · cases hb : body s with
      | ret v => exact Or.inr ⟨k, s, v, by omega, hs, hb⟩
      | fail e => exact absurd hb (hnofail s e)
      | next s1 => exact Or.inl ⟨s1, iterate_snoc body k s0 s s1 hs hb⟩
    · exact Or.inr ⟨j, s, v, by omega, hit, hb⟩

/-- Every round halves the width of the bracket. -/
theorem bisection_width (f : α → α) (tol : α) :
    ∀ (k : Nat) (s0 s : Bracket α), iterate (bisectionBody f tol) k s0 = some s →
      s.b - s.a = (s0.b - s0.a) / 2 ^ k := by
  intro k
  induction k with
  | zero =>
    intro s0 s hit
    simp only [iterate, Option.some.injEq] at hit
    subst hit
    simp
  | succ k ih =>
    intro s0 s hit
    simp only [iterate] at hit
    cases hs : bisectionBody f tol s0 with
    | ret w => simp [hs] at hit
    | fail e => simp [hs] at hit
    | next t =>
      simp only [hs] at hit
      rw [ih t s hit, pow_succ]
      rcases bisectionBody_next f tol s0 t hs with ⟨ha, hb⟩ | ⟨ha, hb⟩
      · rw [ha, hb]
        field_simp
        ring
      · rw [ha, hb]
        field_simp
        ring

/-- C14. Over exact arithmetic, for `a ≤ b`, `f(a) * f(b) ≤ 0` and `tol > 0`:
the bracket after `k` rounds has width `(b - a)/2^k`, and if
`(b - a)/2^(k+1) < tol` for some `k < 1000000` then `bisection` returns a value,
from a pass numbered `j ≤ k` (0-based), so within `k + 1` passes and without
the did-not-converge error. -/
theorem bisection_halving_terminates (f : α → α) (a b tol : α) (_hab : a ≤ b)
    (hsign : f a * f b ≤ 0) (_htol : 0 < tol) :
    (∀ (k : Nat) (s : Bracket α),
      iterate (bisectionBody f tol) k ⟨a, b, f a, f b⟩ = some s →
      s.b - s.a = (b - a) / 2 ^ k) ∧
    (∀ k : Nat, k < maxIter → (b - a) / 2 ^ (k + 1) < tol →
      ∃ (j : Nat) (s : Bracket α) (c : α), j ≤ k ∧
        iterate (bisectionBody f tol) j ⟨a, b, f a, f b⟩ = some s ∧
        bisectionBody f tol s = .ret c ∧
        bisection f a b tol = .ok c ∧
        bisection f a b tol ≠ .error .bisectionDidNotConverge) := by
  constructor
  · intro k s hit
    exact bisection_width f tol k ⟨a, b, f a, f b⟩ s hit
  · intro k hk hw
    have hres : ∀ (j : Nat) (s : Bracket α) (c : α), j ≤ k →
        iterate (bisectionBody f tol) j ⟨a, b, f a, f b⟩ = some s →
        bisectionBody f tol s = .ret c →
        bisection f a b tol = .ok c ∧
        bisection f a b tol ≠ .error .bisectionDidNotConverge := by
      intro j s c hj hit hb
      have hok : bisection f a b tol = .ok c := by
        unfold bisection
        simp only [gt_iff_lt, not_lt.2 hsign, if_false]
        exact runLoop_of_iterate_ret _ _ j maxIter _ s c (by omega) hit hb
      refine ⟨hok, ?_⟩
      rw [hok]
      intro h
      cases h
    rcases iterate_progress (bisectionBody f tol) (bisectionBody_ne_fail f tol)
        ⟨a, b, f a, f b⟩ k with ⟨s, hs⟩ | ⟨j, s, v, hj, hit, hb⟩
    · have hwidth := bisection_width f tol k ⟨a, b, f a, f b⟩ s hs
      simp only at hwidth
      have hhalf : (s.b - s.a) / 2 < tol := by
        rw [hwidth, div_div, ← pow_succ]
        exact hw
      have hb : bisectionBody f tol s = .ret (1 / 2 * (s.a + s.b)) := by
        rw [bisectionBody_eq, if_pos (Or.inr hhalf)]
      obtain ⟨h1, h2⟩ := hres k s _ (le_refl k) hs hb
      exact ⟨k, s, _, le_refl k, hs, hb, h1, h2⟩
    · obtain ⟨h1, h2⟩ := hres j s v (by omega) hit hb
      exact ⟨j, s, v, by omega, hit, hb, h1, h2⟩

/-- C14 at `f(x) = x^2 - 2` on `[0, 2]` with `tol = 1e-6` and `k = 20`:
`2/2^21 < 1e-6`, so a value is returned within 21 passes. -/
theorem bisection_halving_terminates_witness :
    (0 : ℚ) ≤ 2 ∧ (fun x : ℚ => x ^ 2 - 2) 0 * (fun x : ℚ => x ^ 2 - 2) 2 ≤ 0 ∧
    (0 : ℚ) < 1 / 10 ^ 6 ∧ 20 < maxIter ∧ ((2 : ℚ) - 0) / 2 ^ (20 + 1) < 1 / 10 ^ 6 ∧
    ∃ (j : Nat) (s : Bracket ℚ) (c : ℚ), j ≤ 20 ∧
      iterate (bisectionBody (fun x : ℚ => x ^ 2 - 2) (1 / 10 ^ 6)) j
        ⟨0, 2, (fun x : ℚ => x ^ 2 - 2) 0, (fun x : ℚ => x ^ 2 - 2) 2⟩ = some s ∧
      bisectionBody (fun x : ℚ => x ^ 2 - 2) (1 / 10 ^ 6) s = .ret c ∧
      bisection (fun x : ℚ => x ^ 2 - 2) 0 2 (1 / 10 ^ 6) = .ok c ∧
      bisection (fun x : ℚ => x ^ 2 - 2) 0 2 (1 / 10 ^ 6) ≠
        .error .bisectionDidNotConverge :=
  ⟨by norm_num, by norm_num, by norm_num, by norm_num [maxIter], by norm_num,
    (bisection_halving_terminates (fun x : ℚ => x ^ 2 - 2) 0 2 (1 / 10 ^ 6)
      (by norm_num) (by norm_num) (by norm_num)).2 20 (by norm_num [maxIter]) (by norm_num)⟩

end BisectionInvariant

/-! ## Regula falsi: the denominator -/

section RegulaFalsiDenominator

variable {α : Type} [LinearOrderedField α]

/-- One round of `regula_falsi` keeps: the cached `fa` is `f(a)`, `fb ≠ 0`, and
the stored values have strictly opposite signs or `fa = 0`. -/
theorem regulaFalsi_sign_step (f : α → α) (tol : α) (t t1 : Bracket α)
    (ht : t.fa = f t.a ∧ t.fb ≠ 0 ∧ (t.fa * t.fb < 0 ∨ t.fa = 0))
    (hn : regulaFalsiBody f tol t = .next t1) :
    t1.fa = f t1.a ∧ t1.fb ≠ 0 ∧ (t1.fa * t1.fb < 0 ∨ t1.fa = 0) := by
  obtain ⟨hfa, hfb, hcase⟩ := ht
  rw [regulaFalsiBody_eq] at hn
  split_ifs at hn with hstop hlt
  · simp only [LoopStep.next.injEq] at hn
    subst hn
    refine ⟨hfa, ?_, Or.inl hlt⟩
    intro h0
    simp only at h0
    rw [h0, mul_zero] at hlt
    exact lt_irrefl _ hlt
  · simp only [LoopStep.next.injEq] at hn
    subst hn
    refine ⟨rfl, hfb, ?_⟩
    simp only
    rcases hcase with hneg | hzero
    · by_cases hfc : f ((t.a * t.fb - t.b * t.fa) / (t.fb - t.fa)) = 0
      · exact Or.inr hfc
      · left
        have hge : 0 ≤ t.fa * f ((t.a * t.fb - t.b * t.fa) / (t.fb - t.fa)) := not_lt.1 hlt
        have hne : t.fa ≠ 0 := by
          intro h0
          rw [h0, zero_mul] at hneg
          exact lt_irrefl _ hneg
        rcases lt_or_gt_of_ne hne with ha | ha
        · have h1 : f ((t.a * t.fb - t.b * t.fa) / (t.fb - t.fa)) < 0 := by
            rcases lt_or_gt_of_ne hfc with h | h
            · exact h
            · exact absurd (mul_neg_of_neg_of_pos ha h) (not_lt.2 hge)
          have h2 : 0 < t.fb := by
            by_contra hc
            exact absurd (mul_nonneg_of_nonpos_of_nonpos ha.le (not_lt.1 hc)) (not_le.2 hneg)
          exact mul_neg_of_neg_of_pos h1 h2
        · have h1 : 0 < f ((t.a * t.fb - t.b * t.fa) / (t.fb - t.fa)) := by
            rcases lt_or_gt_of_ne hfc with h | h
            · exact absurd (mul_neg_of_pos_of_neg ha h) (not_lt.2 hge)
            · exact h
          have h2 : t.fb < 0 := by
            by_contra hc
            exact absurd (mul_nonneg ha.le (not_lt.1 hc)) (not_le.2 hneg)
          exact mul_neg_of_pos_of_neg h1 h2
    · right
      have hc : (t.a * t.fb - t.b * t.fa) / (t.fb - t.fa) = t.a := by
        rw [hzero, mul_zero, sub_zero, sub_zero]
        exact mul_div_cancel_right₀ t.a hfb
      rw [hc, ← hfa, hzero]

/-- Over exact arithmetic: with `f(a) * f(b) < 0`, at every bracket the loop of
`regula_falsi` reaches (the initial one included) the denominator `fb - fa` is
non-zero, for every `tol`.  In binary64 the product of the sign test can
underflow; that run is traced in the binary64 section. -/
theorem regula_falsi_denominator_ne_zero (f : α → α) (a b tol : α)
    (hsign : f a * f b < 0) (k : Nat) (s : Bracket α)
    (hit : iterate (regulaFalsiBody f tol) k ⟨a, b, f a, f b⟩ = some s) :
    s.fb - s.fa ≠ 0 := by
  have hfb0 : f b ≠ 0 := by
    intro h0
    rw [h0, mul_zero] at hsign
    exact lt_irrefl _ hsign
  obtain ⟨_, hfb, hcase⟩ :=
    iterate_invariant (regulaFalsiBody f tol)
      (fun t => t.fa = f t.a ∧ t.fb ≠ 0 ∧ (t.fa * t.fb < 0 ∨ t.fa = 0))
      (fun t t1 ht hn => regulaFalsi_sign_step f tol t t1 ht hn) k
      ⟨a, b, f a, f b⟩ s ⟨rfl, hfb0, Or.inl hsign⟩ hit
  intro hd
  have heq : s.fb = s.fa := sub_eq_zero.1 hd
  rcases hcase with hneg | hzero
  · rw [← heq] at hneg
    exact absurd (mul_self_nonneg s.fb) (not_le.2 hneg)
  · exact hfb (heq.trans hzero)

/-- At `f(x) = x^2 - 2` on `[0, 2]`, `tol = 1e-6`: after one round the
bracket is `[1, 2]` with `fa = -1`, `fb = 2`. -/
theorem regula_falsi_denominator_ne_zero_witness :
    (fun x : ℚ => x ^ 2 - 2) 0 * (fun x : ℚ => x ^ 2 - 2) 2 < 0 ∧
    iterate (regulaFalsiBody (fun x : ℚ => x ^ 2 - 2) (1 / 10 ^ 6)) 1
      ⟨0, 2, (fun x : ℚ => x ^ 2 - 2) 0, (fun x : ℚ => x ^ 2 - 2) 2⟩ =
        some ⟨1, 2, -1, 2⟩ ∧
    (2 : ℚ) - -1 ≠ 0 :=
  have hit : iterate (regulaFalsiBody (fun x : ℚ => x ^ 2 - 2) (1 / 10 ^ 6)) 1
      ⟨0, 2, (fun x : ℚ => x ^ 2 - 2) 0, (fun x : ℚ => x ^ 2 - 2) 2⟩ =
        some ⟨1, 2, -1, 2⟩ := by
    norm_num [iterate, regulaFalsiBody, abs_lt]
  ⟨by norm_num, hit,
    regula_falsi_denominator_ne_zero (fun x : ℚ => x ^ 2 - 2) 0 2 (1 / 10 ^ 6)
      (by norm_num) 1 ⟨1, 2, -1, 2⟩ hit⟩

end RegulaFalsiDenominator

/-! ## Non-positive tolerance, linear functions, and the unused argument -/

section StepSizeFacts

variable {α : Type} [LinearOrderedField α]

theorem newtonBody_ne_ret_of_tol_nonpos (f df : α → α) (tol : α) (htol : tol ≤ 0)
    (x v : α) : newtonBody f df tol x ≠ .ret v := by
  intro h
  have hlt := ((newtonBody_ret_iff f df tol x v).1 h).2.2
  exact absurd (lt_of_lt_of_le hlt htol) (not_lt.2 (abs_nonneg _))

theorem secantBody_ne_ret_of_tol_nonpos (f : α → α) (tol : α) (htol : tol ≤ 0)
    (s : SecantState α) (v : α) : secantBody f tol s ≠ .ret v := by
  intro h
  have hlt := ((secantBody_ret_iff f tol s v).1 h).2.2
  exact absurd (lt_of_lt_of_le hlt htol) (not_lt.2 (abs_nonneg _))

theorem secantBody_fail_eq (f : α → α) (tol : α) (s : SecantState α) (e : RootError)
    (h : secantBody f tol s = .fail e) : e = .secantDivisionByZero := by
  rw [secantBody_eq] at h
  split_ifs at h
  simp only [LoopStep.fail.injEq] at h
  exact h.symm

/-- A loop that returns no value and throws only `e1` ends in `e1` or in the
exhaustion error. -/
theorem runLoop_error_of_no_ret {σ β : Type} (body : σ → LoopStep σ β) (ex e1 : RootError)
    (hret : ∀ s v, body s ≠ .ret v) (hfail : ∀ s e, body s = .fail e → e = e1)
    (fuel : Nat) (s0 : σ) :
    runLoop body ex fuel s0 = .error e1 ∨ runLoop body ex fuel s0 = .error ex := by
  cases hr : runLoop body ex fuel s0 with
  | ok v =>
    obtain ⟨k, s, _, _, hb⟩ := (runLoop_ok_iff body ex fuel s0 v).1 hr
    exact absurd hb (hret s v)
  | error e =>
    rcases runLoop_error_cases body ex fuel s0 e hr with h | ⟨k, s, _, _, hb⟩
    · exact Or.inr (by rw [h])
    · exact Or.inl (by rw [hfail s e hb])

/-- C16. With `tol ≤ 0` neither `newton_raphson` nor `secant` returns a value:
each ends in its degeneracy error or in its did-not-converge error. -/
theorem nonpositive_tol_never_returns (f df : α → α) (x0 x1 tol : α) (htol : tol ≤ 0) :
    ((∀ v, newton_raphson f df x0 tol ≠ .ok v) ∧
      (newton_raphson f df x0 tol = .error .zeroDerivative ∨
        newton_raphson f df x0 tol = .error .newtonDidNotConverge)) ∧
    ((∀ v, secant f x0 x1 tol ≠ .ok v) ∧
      (secant f x0 x1 tol = .error .secantDivisionByZero ∨
        secant f x0 x1 tol = .error .secantDidNotConverge)) := by
  have hN := runLoop_error_of_no_ret (newtonBody f df tol) .newtonDidNotConverge
    .zeroDerivative (newtonBody_ne_ret_of_tol_nonpos f df tol htol)
    (fun s e h => ((newtonBody_fail_iff f df tol s e).1 h).2) maxIter x0
  have hS := runLoop_error_of_no_ret (secantBody f tol) .secantDidNotConverge
    .secantDivisionByZero (secantBody_ne_ret_of_tol_nonpos f tol htol)
    (fun s e h => secantBody_fail_eq f tol s e h) maxIter ⟨x0, x1, f x0, f x1⟩
  refine ⟨⟨?_, hN⟩, ⟨?_, hS⟩⟩
  · intro v hv
    unfold newton_raphson at hv
    rcases hN with h | h <;> rw [h] at hv <;> cases hv
  · intro v hv
    unfold secant at hv
    rcases hS with h | h <;> rw [h] at hv <;> cases hv

/-- C16 at `tol = 0`, with `f(x) = x^2 - 2`, `df(x) = 2x`, `x0 = 1`, `x1 = 2`. -/
theorem nonpositive_tol_never_returns_witness :
    (0 : ℚ) ≤ 0 ∧
    ((∀ v, newton_raphson (fun x : ℚ => x ^ 2 - 2) (fun x : ℚ => 2 * x) 1 0 ≠ .ok v) ∧
      (newton_raphson (fun x : ℚ => x ^ 2 - 2) (fun x : ℚ => 2 * x) 1 0 =
          .error .zeroDerivative ∨
        newton_raphson (fun x : ℚ => x ^ 2 - 2) (fun x : ℚ => 2 * x) 1 0 =
          .error .newtonDidNotConverge)) ∧
    ((∀ v, secant (fun x : ℚ => x ^ 2 - 2) 1 2 0 ≠ .ok v) ∧
      (secant (fun x : ℚ => x ^ 2 - 2) 1 2 0 = .error .secantDivisionByZero ∨
        secant (fun x : ℚ => x ^ 2 - 2) 1 2 0 = .error .secantDidNotConverge)) :=
  ⟨le_refl 0,
    nonpositive_tol_never_returns (fun x : ℚ => x ^ 2 - 2) (fun x : ℚ => 2 * x) 1 2 0
      (le_refl 0)⟩

/-- C17. Over exact arithmetic, on `f(x) = m x + q` with `df(x) = m`,
`|m| > 1e-12` and `tol > 0`, `newton_raphson` returns exactly `-q/m` from every
`x0`, and two passes of the loop already return it. -/
theorem newton_linear_exact (m q x0 tol : α) (hm : degeneracyEps < |m|) (htol : 0 < tol) :
    newton_raphson (fun x => m * x + q) (fun _ => m) x0 tol = .ok (-q / m) ∧
    runLoop (newtonBody (fun x => m * x + q) (fun _ => m) tol) .newtonDidNotConverge 2 x0 =
      .ok (-q / m) := by
  have heps : (0 : α) ≤ degeneracyEps := by
    unfold degeneracyEps
    positivity
  have hm0 : m ≠ 0 := by
    intro h0
    rw [h0, abs_zero] at hm
    exact absurd hm (not_lt.2 heps)
  have hstep : ∀ x : α, x - (m * x + q) / m = -q / m := by
    intro x
    field_simp
    ring
  have hroot : newtonBody (fun x => m * x + q) (fun _ => m) tol (-q / m) = .ret (-q / m) := by
    rw [newtonBody_ret_iff]
    refine ⟨hm, (hstep _).symm, ?_⟩
    rw [sub_self, abs_zero]
    exact htol
  have hany : ∀ n : Nat,
      runLoop (newtonBody (fun x => m * x + q) (fun _ => m) tol) .newtonDidNotConverge
        (n + 2) x0 = .ok (-q / m) := by
    intro n
    by_cases hclose : |-q / m - x0| < tol
    · have hb : newtonBody (fun x => m * x + q) (fun _ => m) tol x0 = .ret (-q / m) := by
        rw [newtonBody_ret_iff]
        exact ⟨hm, (hstep _).symm, hclose⟩
      exact runLoop_ret _ _ (n + 1) x0 _ hb
    · have hb : newtonBody (fun x => m * x + q) (fun _ => m) tol x0 = .next (-q / m) := by
        rw [newtonBody_next_iff]
        exact ⟨hm, (hstep _).symm, hclose⟩
      rw [runLoop_next _ _ (n + 1) x0 _ hb]
      exact runLoop_ret _ _ n _ _ hroot
  exact ⟨hany 999998, hany 0⟩

/-- C17 at `f(x) = 2x - 6` from `x0 = 10` with `tol = 1e-6`: the root `3`. -/
theorem newton_linear_exact_witness :
    (degeneracyEps : ℚ) < |2| ∧ (0 : ℚ) < 1 / 10 ^ 6 ∧
    newton_raphson (fun x : ℚ => 2 * x + -6) (fun _ => 2) 10 (1 / 10 ^ 6) = .ok (- -6 / 2) ∧
    runLoop (newtonBody (fun x : ℚ => 2 * x + -6) (fun _ => 2) (1 / 10 ^ 6))
      .newtonDidNotConverge 2 10 = .ok (- -6 / 2) :=
  ⟨by norm_num [degeneracyEps], by norm_num,
    newton_linear_exact (2 : ℚ) (-6) 10 (1 / 10 ^ 6) (by norm_num [degeneracyEps])
      (by norm_num)⟩

/-- C18. The outcome of `localmax` does not depend on its first argument `f`:
any two functions give the same value or the same error. -/
theorem localmax_ignores_f (f1 f2 df ddf : α → α) (a b tol : α) :
    localmax f1 df ddf a b tol = localmax f2 df ddf a b tol := rfl

/-- A consequence of C18: with `df(x) = -2(x - 3)` and `ddf(x) = -2` on `[0, 6]`,
`3` is returned for `f(x) = x`, which has no local maximum. -/
theorem localmax_unrelated_f :
    localmax (fun x : ℚ => x) (fun x : ℚ => -2 * (x - 3)) (fun _ : ℚ => -2)
      0 6 (1 / 1000000) = .ok 3 := by
  unfold localmax bisection
  norm_num [maxIter, runLoop, bisectionBody, abs_lt]

end StepSizeFacts

/-! ## Runs in binary64: overflow and underflow -/

section Binary64Facts

theorem Double.bitsNeeded_spec :
    ∀ (fuel n j : Nat), n < 2 ^ 2 ^ (j + fuel) → n < 2 ^ 2 ^ Double.bitsNeeded fuel n j := by
  intro fuel
  induction fuel with
  | zero =>
    intro n j h
    simpa [Double.bitsNeeded] using h
  | succ fuel ih =>
    intro n j h
    unfold Double.bitsNeeded
    split_ifs with hlt
    · exact hlt
    · apply ih
      have : j + 1 + fuel = j + (fuel + 1) := by omega
      rw [this]
      exact h

theorem Double.log2Search_spec :
    ∀ (i n acc : Nat), 2 ^ acc ≤ n → n < 2 ^ (acc + 2 ^ i) →
      2 ^ Double.log2Search i n acc ≤ n ∧ n < 2 ^ (Double.log2Search i n acc + 1) := by
  intro i
  induction i with
  | zero =>
    intro n acc h1 h2
    simpa [Double.log2Search] using And.intro h1 h2
  | succ i ih =>
    intro n acc h1 h2
    unfold Double.log2Search
    split_ifs with hge
    · apply ih n (acc + 2 ^ i) hge
      have : acc + 2 ^ i + 2 ^ i = acc + 2 ^ (i + 1) := by rw [pow_succ]; omega
      rw [this]
      exact h2
    · exact ih n acc h1 (not_le.1 hge)

/-- The leading-bit position used by the rounding: `2^k ≤ n < 2^(k+1)`. -/
theorem Double.floorLog2_spec (n : Nat) (hn : 0 < n) :
    2 ^ Double.floorLog2 n ≤ n ∧ n < 2 ^ (Double.floorLog2 n + 1) := by
  unfold Double.floorLog2
  apply Double.log2Search_spec
  · simpa using hn
  · rw [Nat.zero_add]
    apply Double.bitsNeeded_spec
    rw [Nat.zero_add]
    calc n < 2 ^ n := Nat.lt_two_pow n
      _ ≤ 2 ^ 2 ^ n := Nat.pow_le_pow_right (by norm_num) (Nat.lt_two_pow n).le

theorem eq_ok_of_toOption {ε β : Type} (r : Except ε β) (v : β)
    (h : r.toOption = some v) : r = .ok v := by
  cases r with
  | error e => simp [Except.toOption] at h
  | ok w =>
    simp only [Except.toOption, Option.some.injEq] at h
    rw [h]

/-- C2 fails in binary64 by overflow of the midpoint: for `f(x) = x - 1e308`,
`a = b = 1e308`, `tol = 1e-6` the guard passes (`a ≤ b`, `f(a) * f(b) = 0`), the
sum `a + b` is `+inf`, and `bisection` returns `+inf`, which is not `≤ b`. -/
theorem bisection_midpoint_overflow :
    Double.le (Double.ofNat (10 ^ 308)) (Double.ofNat (10 ^ 308)) = true ∧
    Double.add (Double.ofNat (10 ^ 308)) (Double.ofNat (10 ^ 308)) = .inf false ∧
    Binary64.bisection Binary64.shiftedLine (Double.ofNat (10 ^ 308)) (Double.ofNat (10 ^ 308))
      (Double.ofRatio 1 (10 ^ 6)) = .ok (.inf false) ∧
    Double.le (.inf false) (Double.ofNat (10 ^ 308)) = false :=
  ⟨by decide!, by decide!, eq_ok_of_toOption _ _ (by decide!), by decide!⟩

/-- The sign test `fa * fc < 0` of `bisection` decided by an underflow: for
`f(x) = x / 2^600` on `[-1, 2^200]` with `tol = 2^-1000` the product
`f(a) * f(b)` is strictly negative in binary64, the first product `fa * fc`
underflows to `-0`, the root `0` is dropped and `2^126` is returned, where
`|f(x)| = 2^-474 ≥ tol`. -/
theorem bisection_sign_test_underflow :
    Double.lt (Double.mul (Binary64.flatLine (Double.neg (Double.ofNat 1)))
      (Binary64.flatLine (Double.ofNat (2 ^ 200)))) (Double.ofNat 0) = true ∧
    Binary64.bisection Binary64.flatLine (Double.neg (Double.ofNat 1)) (Double.ofNat (2 ^ 200))
      (Double.ofRatio 1 (2 ^ 1000)) = .ok (Double.ofNat (2 ^ 126)) ∧
    Double.lt (Double.abs (Binary64.flatLine (Double.ofNat (2 ^ 126))))
      (Double.ofRatio 1 (2 ^ 1000)) = false :=
  ⟨by decide!, eq_ok_of_toOption _ _ (by decide!), by decide!⟩

/-- C15 fails in binary64 by underflow of the sign test: for the table function
on `[0, 1]` with `tol = 2^-1000`, `f(a) * f(b) = -2^-1000 < 0`; in the first
pass `fa * fc = -2^-1100` underflows to `-0`, so the else branch is taken, and
after two rounds `fa = fb = 2^-400`: the denominator `fb - fa` of the third
pass is `0` and the interpolation point is `-inf`. -/
theorem regula_falsi_zero_denominator :
    Double.lt (Double.mul (Binary64.tableFunction (Double.ofNat 0))
      (Binary64.tableFunction (Double.ofNat 1))) (Double.ofNat 0) = true ∧
    ∃ s : Bracket Double,
      iterate (Binary64.regulaFalsiBody Binary64.tableFunction (Double.ofRatio 1 (2 ^ 1000))) 2
        ⟨Double.ofNat 0, Double.ofNat 1, Binary64.tableFunction (Double.ofNat 0),
          Binary64.tableFunction (Double.ofNat 1)⟩ = some s ∧
      s.fa = Double.ofRatio 1 (2 ^ 400) ∧ s.fb = Double.ofRatio 1 (2 ^ 400) ∧
      Double.sub s.fb s.fa = Double.ofNat 0 ∧
      Double.div (Double.sub (Double.mul s.a s.fb) (Double.mul s.b s.fa))
        (Double.sub s.fb s.fa) = .inf true := by
  refine ⟨by decide!, ?_⟩
  have h : (iterate
      (Binary64.regulaFalsiBody Binary64.tableFunction (Double.ofRatio 1 (2 ^ 1000))) 2
        ⟨Double.ofNat 0, Double.ofNat 1, Binary64.tableFunction (Double.ofNat 0),
          Binary64.tableFunction (Double.ofNat 1)⟩).map
      (fun s => (s.fa, s.fb, Double.sub s.fb s.fa,
        Double.div (Double.sub (Double.mul s.a s.fb) (Double.mul s.b s.fa))
          (Double.sub s.fb s.fa))) =
      some (Double.ofRatio 1 (2 ^ 400), Double.ofRatio 1 (2 ^ 400), Double.ofNat 0,
        .inf true) := by
    decide!
  obtain ⟨s, hs, hv⟩ := Option.map_eq_some'.1 h
  simp only [Prod.mk.injEq] at hv
  exact ⟨s, hs, hv.1, hv.2.1, hv.2.2.1, hv.2.2.2⟩

end Binary64Facts

end Roots
